import Mathlib

/-!
Verification of the electrostatics visualizer (src/fields1e.py).

The source manipulates numpy float arrays pointwise; we embed the arithmetic
over the real numbers, evaluating the per-grid-point computation at an
arbitrary point (x, y).  A Python charge tuple (q, cx, cy) becomes the
structure Charge.  The numpy masked arrays returned by compute_field carry a
single boolean validity mask shared by Ex, Ey and V; we embed that as one
Prop-valued field of the result structure.
-/

noncomputable section

open Classical

/-- A point charge: the Python tuple (q, cx, cy). -/
structure Charge where
  q : ℝ
  x : ℝ
  y : ℝ

/-- Accumulator of the loop inside compute_field: the running sums Ex, Ey, V
and the running mask (the source initialises them with np.zeros_like and
np.ones_like). -/
@[ext]
structure FieldAcc where
  Ex : ℝ
  Ey : ℝ
  V : ℝ
  mask : Prop

/-- One iteration of the loop in compute_field: dx = x - cx, dy = y - cy,
r = sqrt(dx**2 + dy**2) + 1e-20, then mask &= r > 0.22,
Ex += q*dx/r**3, Ey += q*dy/r**3, V += q/r. -/
def compute_field_step (x y : ℝ) (acc : FieldAcc) (c : Charge) : FieldAcc :=
  let dx := x - c.x
  let dy := y - c.y
  let r := Real.sqrt (dx ^ 2 + dy ^ 2) + 1e-20
  { Ex := acc.Ex + c.q * dx / r ^ 3
    Ey := acc.Ey + c.q * dy / r ^ 3
    V := acc.V + c.q / r
    mask := acc.mask ∧ r > 0.22 }

/-- compute_field of the source, at one grid point (x, y): fold the loop body
over the charge list starting from all-zero sums and an all-true mask. -/
def compute_field (x y : ℝ) (charges : List Charge) : FieldAcc :=
  charges.foldl (compute_field_step x y) ⟨0, 0, 0, True⟩

/-- Distance from the point (x, y) to the center of charge c, with the
additive epsilon guard of the source. -/
def r_of (x y : ℝ) (c : Charge) : ℝ :=
  Real.sqrt ((x - c.x) ^ 2 + (y - c.y) ^ 2) + 1e-20

/-- Plain Euclidean distance from (x, y) to the center of charge c (no
epsilon); this is the quantity the spec's mask sentence speaks about. -/
def dist_to (x y : ℝ) (c : Charge) : ℝ :=
  Real.sqrt ((x - c.x) ^ 2 + (y - c.y) ^ 2)

/-- The Coulomb contribution of a single charge, as the spec states it. -/
def contribEx (x y : ℝ) (c : Charge) : ℝ := c.q * (x - c.x) / r_of x y c ^ 3

def contribEy (x y : ℝ) (c : Charge) : ℝ := c.q * (y - c.y) / r_of x y c ^ 3

def contribV (x y : ℝ) (c : Charge) : ℝ := c.q / r_of x y c

lemma compute_field_step_Ex (x y : ℝ) (acc : FieldAcc) (c : Charge) :
    (compute_field_step x y acc c).Ex = acc.Ex + contribEx x y c := rfl

lemma compute_field_step_Ey (x y : ℝ) (acc : FieldAcc) (c : Charge) :
    (compute_field_step x y acc c).Ey = acc.Ey + contribEy x y c := rfl

lemma compute_field_step_V (x y : ℝ) (acc : FieldAcc) (c : Charge) :
    (compute_field_step x y acc c).V = acc.V + contribV x y c := rfl

lemma compute_field_step_mask (x y : ℝ) (acc : FieldAcc) (c : Charge) :
    (compute_field_step x y acc c).mask = (acc.mask ∧ r_of x y c > 0.22) := rfl

/-- The fold underlying compute_field, from an arbitrary accumulator. -/
lemma compute_field_foldl (x y : ℝ) (charges : List Charge) (acc : FieldAcc) :
    charges.foldl (compute_field_step x y) acc =
      ⟨acc.Ex + (charges.map (contribEx x y)).sum,
       acc.Ey + (charges.map (contribEy x y)).sum,
       acc.V + (charges.map (contribV x y)).sum,
       acc.mask ∧ ∀ c ∈ charges, r_of x y c > 0.22⟩ := by
  induction charges generalizing acc with
  | nil =>
    cases acc with
    | mk Ex Ey V mask =>
      simp only [List.foldl_nil, List.map_nil, List.sum_nil, add_zero, FieldAcc.mk.injEq]
      refine ⟨trivial, trivial, trivial, ?_⟩
      apply propext
      simp
  | cons c cs ih =>
    simp only [List.foldl_cons, List.map_cons, List.sum_cons, List.mem_cons]
    rw [ih]
    simp only [compute_field_step_Ex, compute_field_step_Ey, compute_field_step_V,
      compute_field_step_mask]
    refine FieldAcc.mk.injEq _ _ _ _ _ _ _ _ ▸ ?_
    refine ⟨by ring, by ring, by ring, ?_⟩
    apply propext
    constructor
    · rintro ⟨⟨hm, hc⟩, hall⟩
      exact ⟨hm, fun d hd => hd.elim (fun h => h ▸ hc) (hall d)⟩
    · rintro ⟨hm, hall⟩
      exact ⟨⟨hm, hall c (Or.inl rfl)⟩, fun d hd => hall d (Or.inr hd)⟩

lemma compute_field_Ex (x y : ℝ) (charges : List Charge) :
    (compute_field x y charges).Ex = (charges.map (contribEx x y)).sum := by
  unfold compute_field
  rw [compute_field_foldl]
  simp

lemma compute_field_Ey (x y : ℝ) (charges : List Charge) :
    (compute_field x y charges).Ey = (charges.map (contribEy x y)).sum := by
  unfold compute_field
  rw [compute_field_foldl]
  simp

lemma compute_field_V (x y : ℝ) (charges : List Charge) :
    (compute_field x y charges).V = (charges.map (contribV x y)).sum := by
  unfold compute_field
  rw [compute_field_foldl]
  simp

lemma compute_field_mask (x y : ℝ) (charges : List Charge) :
    (compute_field x y charges).mask = ∀ c ∈ charges, r_of x y c > 0.22 := by
  unfold compute_field
  rw [compute_field_foldl]
  simp

/-- np.hypot of the source. -/
def hypot (a b : ℝ) : ℝ := Real.sqrt (a ^ 2 + b ^ 2)

/-- A matplotlib button_press_event, with the fields onclick reads: inaxes
(whether the click landed in the axes), button (1 primary, 2 middle,
3 secondary), the held key, and the data coordinates. -/
structure ClickEvent where
  inaxes : Bool
  button : ℕ
  key : Option String
  xdata : ℝ
  ydata : ℝ

/-- modify_charge_dialog of the source, with the blocking askfloat prompt
abstracted as its returned value new_q : Option of a real.  On none the
charge list is untouched; on some nq the entry at index is replaced by
(nq, old x, old y). -/
def modify_charge_dialog (charges : List Charge) (index : ℕ) (new_q : Option ℝ) :
    List Charge :=
  match new_q with
  | none => charges
  | some nq =>
    charges.set index
      ⟨nq, (charges.getD index ⟨0, 0, 0⟩).x, (charges.getD index ⟨0, 0, 0⟩).y⟩

/-- The scanning loop of onclick: index of the first charge within 0.3 of the
click at which the inner button test fires (button 3 deletes; button 1 with
the shift key opens the dialog).  A nearby charge that fires neither test
does not stop the loop: the source has no break there. -/
def onclick_hit (ev : ClickEvent) : List Charge → Option ℕ
  | [] => none
  | c :: cs =>
    if hypot (ev.xdata - c.x) (ev.ydata - c.y) < 0.3 ∧
        (ev.button = 3 ∨ (ev.button = 1 ∧ ev.key = some "shift")) then
      some 0
    else
      (onclick_hit ev cs).map (· + 1)

/-- Result of a click: the new charge list and whether plot_field ran. -/
structure ClickResult where
  charges : List Charge
  replot : Bool

/-- onclick of the source.  Outside the axes nothing happens.  Otherwise the
loop scans for a hit (see onclick_hit); a hit with button 3 deletes that
charge, a hit with button 1 and shift runs the dialog.  When the loop falls
through, button 1 appends a charge of magnitude 1 and button 3 a charge of
magnitude -1 at the click position; any other button returns without
replotting. -/
def onclick (ev : ClickEvent) (dialogReply : Option ℝ) (charges : List Charge) :
    ClickResult :=
  if ev.inaxes then
    match onclick_hit ev charges with
    | some i =>
      if ev.button = 3 then ⟨charges.eraseIdx i, true⟩
      else ⟨modify_charge_dialog charges i dialogReply, true⟩
    | none =>
      if ev.button = 1 then ⟨charges ++ [⟨1, ev.xdata, ev.ydata⟩], true⟩
      else if ev.button = 3 then ⟨charges ++ [⟨-1, ev.xdata, ev.ydata⟩], true⟩
      else ⟨charges, false⟩
  else ⟨charges, false⟩

/-- The program state onkeypress touches: the three visibility globals and
the charge list. -/
structure UIState where
  show_field_lines : Bool
  show_equipotential_lines : Bool
  show_equipotential_map : Bool
  charges : List Charge

/-- clear_charges of the source. -/
def clear_charges (st : UIState) : UIState := { st with charges := [] }

/-- The bindings the key-s branch establishes before the savefig call: the
prompt answer is stored under the name fields_save.  The name field_save
read on the next line is assigned nowhere in the program, neither locally
nor globally. -/
def globals_after_input (promptResult : String) : List (String × String) :=
  [("fields_save", promptResult)]

/-- Python name resolution over a list of bindings. -/
def lookup_name (env : List (String × String)) (name : String) : Option String :=
  (env.find? (fun p => p.1 == name)).map (fun p => p.2)

/-- Result of a key press: the new state, the filename handed to savefig (if
any), and whether plot_field ran. -/
structure KeyResult where
  state : UIState
  saved : Option String
  replot : Bool

/-- onkeypress of the source, with the blocking input() prompt abstracted as
its returned string.  Branches in source order: 1, 2, c, 3, s; the s branch
reads the undefined name field_save, which Python resolves against the
global bindings and, finding none, raises NameError before plot_field runs.
Every other branch falls through to the unconditional plot_field call. -/
def onkeypress (st : UIState) (key : String) (promptResult : String) :
    Except String KeyResult :=
  if key = "1" then
    Except.ok ⟨{ st with show_field_lines := !st.show_field_lines }, none, true⟩
  else if key = "2" then
    Except.ok ⟨{ st with show_equipotential_lines := !st.show_equipotential_lines },
      none, true⟩
  else if key = "c" then
    Except.ok ⟨clear_charges st, none, true⟩
  else if key = "3" then
    Except.ok ⟨{ st with show_equipotential_map := !st.show_equipotential_map },
      none, true⟩
  else if key = "s" then
    match lookup_name (globals_after_input promptResult) "field_save" with
    | some f => Except.ok ⟨st, some f, true⟩
    | none => Except.error "NameError: name field_save is not defined"
  else
    Except.ok ⟨st, none, true⟩

/-- Number of field-line seeds for a charge of magnitude q: the Python
int(abs(q) * 16), truncation of a nonnegative float, i.e. the floor. -/
def num_field_lines (q : ℝ) : ℕ := (⌊|q| * 16⌋).toNat

/-- The seed points one charge contributes in plot_field: n = int(abs(q)*16)
points at radius 0.35 around the center, at angles 2*pi*i/n for i < n. -/
def seed_points_for (c : Charge) : List (ℝ × ℝ) :=
  (List.range (num_field_lines c.q)).map (fun i : ℕ =>
    (c.x + 0.35 * Real.cos (2 * Real.pi * (i : ℝ) / (num_field_lines c.q : ℝ)),
     c.y + 0.35 * Real.sin (2 * Real.pi * (i : ℝ) / (num_field_lines c.q : ℝ))))

/-- start_points of plot_field: the seeds of all charges, in charge order. -/
def start_points (charges : List Charge) : List (ℝ × ℝ) :=
  (charges.map seed_points_for).flatten

/-- The guard on the streamplot call in plot_field: field lines are drawn
only when the toggle is on and at least one seed exists. -/
def field_line_layer_drawn (show_fl : Bool) (charges : List Charge) : Bool :=
  show_fl && decide (0 < (start_points charges).length)

/-- C1: at every sample point (x, y) and for every charge list, the Ex, Ey
and V computed by compute_field are the sums over all charges of the
Coulomb contributions q*dx/r^3, q*dy/r^3 and q/r, where dx = x - cx,
dy = y - cy and r = sqrt(dx^2 + dy^2) + 1e-20.  Stated for every real point,
which covers every point of the 1200 x 1200 sample grid. -/
theorem C1_compute_field_superposition (x y : ℝ) (charges : List Charge) :
    (compute_field x y charges).Ex =
      (charges.map (fun c => c.q * (x - c.x) /
        (Real.sqrt ((x - c.x) ^ 2 + (y - c.y) ^ 2) + 1e-20) ^ 3)).sum ∧
    (compute_field x y charges).Ey =
      (charges.map (fun c => c.q * (y - c.y) /
        (Real.sqrt ((x - c.x) ^ 2 + (y - c.y) ^ 2) + 1e-20) ^ 3)).sum ∧
    (compute_field x y charges).V =
      (charges.map (fun c => c.q /
        (Real.sqrt ((x - c.x) ^ 2 + (y - c.y) ^ 2) + 1e-20))).sum := by
  refine ⟨?_, ?_, ?_⟩
  · rw [compute_field_Ex]
    congr 1
  · rw [compute_field_Ey]
    congr 1
  · rw [compute_field_V]
    congr 1

lemma dist_to_self_x (d : ℝ) (hd : 0 ≤ d) (cy : ℝ) :
    dist_to d cy ⟨1, 0, cy⟩ = d := by
  unfold dist_to
  simp only [sub_zero, sub_self]
  rw [show d ^ 2 + (0 : ℝ) ^ 2 = d ^ 2 by ring]
  exact Real.sqrt_sq hd

/-- C2 is false as stated: with a single unit charge at the origin, the grid
point (0.22, 0) lies at Euclidean distance exactly 0.22 from the charge
center, which does not exceed 0.22, yet the mask marks it valid, because the
source compares sqrt(dx^2+dy^2) + 1e-20 (not the bare distance) against
0.22. -/
theorem C2_counterexample :
    ¬ ((compute_field 0.22 0 [⟨1, 0, 0⟩]).mask ↔
        ∀ c ∈ [(⟨1, 0, 0⟩ : Charge)], dist_to 0.22 0 c > 0.22) := by
  intro h
  have hdist : dist_to 0.22 0 (⟨1, 0, 0⟩ : Charge) = 0.22 :=
    dist_to_self_x 0.22 (by norm_num) 0
  have hmask : (compute_field 0.22 0 [⟨1, 0, 0⟩]).mask := by
    rw [compute_field_mask]
    intro c hc
    rw [List.mem_singleton] at hc
    subst hc
    unfold r_of
    have : Real.sqrt (((0.22 : ℝ) - 0) ^ 2 + ((0 : ℝ) - 0) ^ 2) = 0.22 :=
      dist_to_self_x 0.22 (by norm_num) 0
    rw [this]
    norm_num
  have := h.mp hmask (⟨1, 0, 0⟩ : Charge) (List.mem_singleton.mpr rfl)
  rw [hdist] at this
  exact absurd this (by norm_num)

/-- C2 amended: the mask marks a point valid iff for every charge the
epsilon-guarded distance sqrt(dx^2+dy^2) + 1e-20 exceeds 0.22, equivalently
iff its Euclidean distance to every charge center exceeds 0.22 - 1e-20.  The
single mask field of the result is the one applied uniformly to Ex, Ey and
V (the source applies np.ma.masked_where with the same mask to all
three). -/
theorem C2_mask_characterization (x y : ℝ) (charges : List Charge) :
    (compute_field x y charges).mask ↔
      ∀ c ∈ charges, dist_to x y c > 0.22 - 1e-20 := by
  rw [compute_field_mask]
  constructor
  · intro hall c hc
    have := hall c hc
    unfold r_of at this
    unfold dist_to
    linarith
  · intro hall c hc
    have := hall c hc
    unfold dist_to at this
    unfold r_of
    linarith

/-- C7: on the empty charge list compute_field returns (it is total; no
exception path exists) and yields Ex = Ey = V = 0 with the mask true
everywhere: no point is excluded. -/
theorem C7_empty_charge_list (x y : ℝ) :
    (compute_field x y []).Ex = 0 ∧ (compute_field x y []).Ey = 0 ∧
      (compute_field x y []).V = 0 ∧ (compute_field x y []).mask :=
  ⟨rfl, rfl, rfl, trivial⟩

/-- C8: compute_field is invariant under permuting the charge list: the sums
are permutation-invariant and so is the conjunction defining the mask.
Exact over the real-number embedding. -/
theorem C8_permutation_invariant (x y : ℝ) (cs cs' : List Charge)
    (h : cs.Perm cs') :
    compute_field x y cs = compute_field x y cs' := by
  ext1
  · rw [compute_field_Ex, compute_field_Ex]
    exact (h.map (contribEx x y)).sum_eq
  · rw [compute_field_Ey, compute_field_Ey]
    exact (h.map (contribEy x y)).sum_eq
  · rw [compute_field_V, compute_field_V]
    exact (h.map (contribV x y)).sum_eq
  · rw [compute_field_mask, compute_field_mask]
    apply propext
    exact ⟨fun hall c hc => hall c (h.mem_iff.mpr hc),
      fun hall c hc => hall c (h.mem_iff.mp hc)⟩

/-- Witness for C8 at a concrete point and a concrete two-charge list. -/
theorem C8_permutation_invariant_witness :
    compute_field 1 0 [⟨1, 0, 0⟩, ⟨-1, 2, 0⟩] =
      compute_field 1 0 [⟨-1, 2, 0⟩, ⟨1, 0, 0⟩] :=
  C8_permutation_invariant 1 0 _ _ (List.Perm.swap _ _ _)

lemma hypot_axis (d : ℝ) (hd : 0 ≤ d) : hypot d 0 = d := by
  unfold hypot
  rw [show d ^ 2 + (0 : ℝ) ^ 2 = d ^ 2 by ring, Real.sqrt_sq hd]

/-- When the button is neither 3 nor (1 with shift held), the scanning loop
of onclick never fires, whatever the distances. -/
lemma onclick_hit_none (ev : ClickEvent)
    (h : ¬(ev.button = 3 ∨ (ev.button = 1 ∧ ev.key = some "shift"))) :
    ∀ cs : List Charge, onclick_hit ev cs = none := by
  intro cs
  induction cs with
  | nil => rfl
  | cons c cs ih =>
    unfold onclick_hit
    rw [if_neg (fun hc => h hc.2), ih]
    rfl

/-- C3 is false as stated: with one unit charge at the origin, a primary
click at (0.1, 0) with no key held lies within 0.3 of that charge, yet the
charge list does not stay unchanged: the loop falls through and the handler
appends a new charge of magnitude 1 at the click position. -/
theorem C3_counterexample :
    hypot ((0.1 : ℝ) - 0) ((0 : ℝ) - 0) < 0.3 ∧
      (onclick ⟨true, 1, none, 0.1, 0⟩ none [⟨1, 0, 0⟩]).charges ≠ [⟨1, 0, 0⟩] := by
  constructor
  · rw [sub_zero, sub_self, hypot_axis 0.1 (by norm_num)]
    norm_num
  · have hnone : onclick_hit ⟨true, 1, none, 0.1, 0⟩ [⟨1, 0, 0⟩] = none := by
      apply onclick_hit_none
      rintro (h3 | ⟨-, hk⟩)
      · exact absurd h3 (by norm_num)
      · exact Option.noConfusion hk
    unfold onclick
    rw [hnone]
    intro hEq
    have := congrArg List.length hEq
    simp at this

/-- C3 amended: a primary click inside the axes with no shift key held, even
at a position within 0.3 of an existing charge, appends a new charge of
magnitude 1 at the click position and replots, exactly as a click far from
every charge would. -/
theorem C3_amended_primary_click_appends (ev : ClickEvent) (reply : Option ℝ)
    (cs : List Charge)
    (_hnear : ∃ c ∈ cs, hypot (ev.xdata - c.x) (ev.ydata - c.y) < 0.3)
    (hax : ev.inaxes = true) (hb : ev.button = 1) (hk : ev.key ≠ some "shift") :
    onclick ev reply cs = ⟨cs ++ [⟨1, ev.xdata, ev.ydata⟩], true⟩ := by
  have hnone : onclick_hit ev cs = none := by
    apply onclick_hit_none
    rintro (h3 | ⟨-, hkey⟩)
    · rw [hb] at h3
      exact absurd h3 (by norm_num)
    · exact hk hkey
  unfold onclick
  rw [hnone, hax, hb]
  simp

/-- Witness for the amended C3 at the counterexample input. -/
theorem C3_amended_witness :
    onclick ⟨true, 1, none, 0.1, 0⟩ none [⟨1, 0, 0⟩] =
      ⟨[⟨1, 0, 0⟩, ⟨1, 0.1, 0⟩], true⟩ := by
  have h := C3_amended_primary_click_appends ⟨true, 1, none, 0.1, 0⟩ none
    [⟨1, 0, 0⟩]
    ⟨⟨1, 0, 0⟩, List.mem_singleton.mpr rfl, by
      rw [sub_zero, sub_self, hypot_axis 0.1 (by norm_num)]
      norm_num⟩
    rfl rfl (by intro h; exact Option.noConfusion h)
  exact h

/-- With button 3, the scanning loop of onclick fires at the first charge
within 0.3 of the click: if index j is within 0.3 and no smaller index is,
the loop returns j. -/
lemma onclick_hit_least (ev : ClickEvent) (hb : ev.button = 3) :
    ∀ (cs : List Charge) (j : ℕ) (hj : j < cs.length),
      hypot (ev.xdata - (cs.get ⟨j, hj⟩).x) (ev.ydata - (cs.get ⟨j, hj⟩).y) < 0.3 →
      (∀ k (hk : k < j),
        ¬ hypot (ev.xdata - (cs.get ⟨k, hk.trans hj⟩).x)
            (ev.ydata - (cs.get ⟨k, hk.trans hj⟩).y) < 0.3) →
      onclick_hit ev cs = some j := by
  intro cs
  induction cs with
  | nil => intro j hj; exact absurd hj (by simp)
  | cons c cs ih =>
    intro j hj hnear hmin
    match j with
    | 0 =>
      unfold onclick_hit
      rw [if_pos ⟨hnear, Or.inl hb⟩]
    | j + 1 =>
      have hc : ¬ hypot (ev.xdata - c.x) (ev.ydata - c.y) < 0.3 :=
        hmin 0 (Nat.succ_pos j)
      unfold onclick_hit
      rw [if_neg (fun hcond => hc hcond.1)]
      have hj' : j < cs.length := Nat.lt_of_succ_lt_succ hj
      have := ih j hj' hnear (fun k hk => hmin (k + 1) (Nat.succ_lt_succ hk))
      rw [this]
      rfl

/-- C5: a secondary (button 3) click inside the axes at a position within
0.3 of the charge at index j, where no smaller index is within 0.3 (even if
a later charge is closer), removes exactly that charge: the result is the
list with the entry at j deleted and everything else unchanged, and the
field is replotted. -/
theorem C5_secondary_click_removes_first (ev : ClickEvent) (reply : Option ℝ)
    (cs : List Charge) (j : ℕ) (hax : ev.inaxes = true) (hb : ev.button = 3)
    (hj : j < cs.length)
    (hnear : hypot (ev.xdata - (cs.get ⟨j, hj⟩).x)
      (ev.ydata - (cs.get ⟨j, hj⟩).y) < 0.3)
    (hmin : ∀ k (hk : k < j),
      ¬ hypot (ev.xdata - (cs.get ⟨k, hk.trans hj⟩).x)
          (ev.ydata - (cs.get ⟨k, hk.trans hj⟩).y) < 0.3) :
    (onclick ev reply cs).charges = cs.take j ++ cs.drop (j + 1) ∧
      (onclick ev reply cs).replot = true := by
  have hhit : onclick_hit ev cs = some j := onclick_hit_least ev hb cs j hj hnear hmin
  unfold onclick
  rw [hax, hhit, hb]
  exact ⟨List.eraseIdx_eq_take_drop_succ cs j, rfl⟩

/-- Witness for C5: a secondary click at (0.08, 0) with charges at (0, 0)
and (0.1, 0); the charge at index 0 is within 0.3 (and the later charge at
index 1 is even closer), and exactly the index-0 charge is removed. -/
theorem C5_witness :
    (onclick ⟨true, 3, none, 0.08, 0⟩ none
      [⟨1, 0, 0⟩, ⟨-1, 0.1, 0⟩]).charges = [⟨-1, 0.1, 0⟩] := by
  have h := C5_secondary_click_removes_first ⟨true, 3, none, 0.08, 0⟩ none
    [⟨1, 0, 0⟩, ⟨-1, 0.1, 0⟩] 0 rfl rfl (by norm_num)
    (by
      show hypot ((0.08 : ℝ) - 0) ((0 : ℝ) - 0) < 0.3
      rw [sub_zero, sub_self, hypot_axis 0.08 (by norm_num)]
      norm_num)
    (fun k hk => absurd hk (Nat.not_lt_zero k))
  rw [h.1]
  rfl

/-- C10: a button-press event outside the axes, or with a button other than
1 and 3, leaves the charge list unchanged and does not replot. -/
theorem C10_other_buttons_no_action (ev : ClickEvent) (reply : Option ℝ)
    (cs : List Charge)
    (h : ev.inaxes = false ∨ (ev.button ≠ 1 ∧ ev.button ≠ 3)) :
    onclick ev reply cs = ⟨cs, false⟩ := by
  unfold onclick
  rcases h with hax | ⟨h1, h3⟩
  · rw [hax]
    simp
  · cases hax : ev.inaxes with
    | false => simp
    | true =>
      have hnone : onclick_hit ev cs = none := by
        apply onclick_hit_none
        rintro (hb3 | ⟨hb1, -⟩)
        · exact h3 hb3
        · exact h1 hb1
      rw [hnone]
      simp [h1, h3]

/-- Witness for C10: a middle-button (button 2) click inside the axes near
an existing charge changes nothing and does not replot. -/
theorem C10_witness :
    onclick ⟨true, 2, none, 0, 0⟩ none [⟨1, 0, 0⟩] = ⟨[⟨1, 0, 0⟩], false⟩ :=
  C10_other_buttons_no_action ⟨true, 2, none, 0, 0⟩ none [⟨1, 0, 0⟩]
    (Or.inr ⟨by norm_num, by norm_num⟩)

/-- C4 is a bug in the code, not in the claim: the key-s branch stores the
prompt answer under the name fields_save but hands the never-assigned name
field_save to savefig, so for every state and every entered filename the
handler raises NameError instead of exporting the image. -/
theorem C4_save_key_raises_name_error (st : UIState) (promptResult : String) :
    onkeypress st "s" promptResult =
      Except.error "NameError: name field_save is not defined" := rfl

/-- C6: each charge of magnitude m contributes exactly floor(16 * abs m)
seed points, the i-th lying on the circle of radius 0.35 around the charge
center at angle 2*pi*i/n; a charge with seed count 0 contributes no seeds,
with no charges the seed list is empty, and then the field-line layer is
skipped whatever the visibility toggle. -/
theorem C6_seed_points (c : Charge) :
    (seed_points_for c).length = (⌊|c.q| * 16⌋).toNat ∧
    (∀ i, i < num_field_lines c.q →
      (seed_points_for c)[i]? = some
        (c.x + 0.35 * Real.cos (2 * Real.pi * i / num_field_lines c.q),
         c.y + 0.35 * Real.sin (2 * Real.pi * i / num_field_lines c.q))) ∧
    (num_field_lines c.q = 0 → seed_points_for c = []) ∧
    start_points [] = [] ∧
    (∀ b : Bool, field_line_layer_drawn b [] = false) := by
  refine ⟨?_, ?_, ?_, rfl, ?_⟩
  · unfold seed_points_for
    rw [List.length_map, List.length_range]
    rfl
  · intro i hi
    unfold seed_points_for
    rw [List.getElem?_map, List.getElem?_range hi]
    rfl
  · intro h0
    unfold seed_points_for
    rw [h0]
    rfl
  · intro b
    simp [field_line_layer_drawn, start_points]

/-- Witness for C6 at a unit charge: 16 seeds, the first at angle 0. -/
theorem C6_seed_points_witness :
    (seed_points_for ⟨1, 0, 0⟩).length = (⌊|(1 : ℝ)| * 16⌋).toNat ∧
    (seed_points_for ⟨1, 0, 0⟩)[0]? = some
      ((⟨1, 0, 0⟩ : Charge).x +
        0.35 * Real.cos (2 * Real.pi * (0 : ℕ) / num_field_lines (⟨1, 0, 0⟩ : Charge).q),
       (⟨1, 0, 0⟩ : Charge).y +
        0.35 * Real.sin (2 * Real.pi * (0 : ℕ) / num_field_lines (⟨1, 0, 0⟩ : Charge).q)) :=
  ⟨(C6_seed_points ⟨1, 0, 0⟩).1,
    (C6_seed_points ⟨1, 0, 0⟩).2.1 0 (by norm_num [num_field_lines])⟩

/-- C9: the magnitude edit is all-or-nothing.  A cancelled prompt leaves the
list untouched; a confirmed value nq changes only the entry at the given
index, replacing its magnitude by nq while keeping its position, and leaves
every other index unchanged. -/
theorem C9_modify_charge_dialog (charges : List Charge) (index : ℕ)
    (h : index < charges.length) :
    modify_charge_dialog charges index none = charges ∧
    ∀ nq : ℝ,
      (modify_charge_dialog charges index (some nq)).length = charges.length ∧
      (modify_charge_dialog charges index (some nq))[index]? =
        some ⟨nq, (charges.get ⟨index, h⟩).x, (charges.get ⟨index, h⟩).y⟩ ∧
      ∀ k, k ≠ index →
        (modify_charge_dialog charges index (some nq))[k]? = charges[k]? := by
  refine ⟨rfl, fun nq => ⟨?_, ?_, ?_⟩⟩
  · simp [modify_charge_dialog]
  · unfold modify_charge_dialog
    rw [List.getElem?_set_eq_of_lt _ h]
    rw [List.getD_eq_getElem _ _ h]
    rfl
  · intro k hk
    unfold modify_charge_dialog
    exact List.getElem?_set_ne (fun hEq => hk hEq.symm)

/-- Witness for C9 on a two-charge list, editing index 1 to magnitude 5. -/
theorem C9_modify_charge_dialog_witness :
    modify_charge_dialog [⟨1, 0, 0⟩, ⟨-1, 2, 3⟩] 1 none = [⟨1, 0, 0⟩, ⟨-1, 2, 3⟩] ∧
    (modify_charge_dialog [⟨1, 0, 0⟩, ⟨-1, 2, 3⟩] 1 (some 5)).length = 2 ∧
    (modify_charge_dialog [⟨1, 0, 0⟩, ⟨-1, 2, 3⟩] 1 (some 5))[1]? =
      some ⟨5, 2, 3⟩ ∧
    (modify_charge_dialog [⟨1, 0, 0⟩, ⟨-1, 2, 3⟩] 1 (some 5))[0]? =
      ([⟨1, 0, 0⟩, ⟨-1, 2, 3⟩] : List Charge)[0]? :=
  ⟨(C9_modify_charge_dialog [⟨1, 0, 0⟩, ⟨-1, 2, 3⟩] 1 (by norm_num)).1,
    ((C9_modify_charge_dialog [⟨1, 0, 0⟩, ⟨-1, 2, 3⟩] 1 (by norm_num)).2 5).1,
    ((C9_modify_charge_dialog [⟨1, 0, 0⟩, ⟨-1, 2, 3⟩] 1 (by norm_num)).2 5).2.1,
    ((C9_modify_charge_dialog [⟨1, 0, 0⟩, ⟨-1, 2, 3⟩] 1 (by norm_num)).2 5).2.2 0
      (by norm_num)⟩

end
